import Mathlib

set_option maxRecDepth 20000

/-!
Verification of the URIFS URI-to-file-system mapper
(`src/court/util/urifs.py`).

The module defines an ordered list `REWRITE_PATTERNS` of sixteen
(pattern, replacement) pairs; `uri_to_path` folds Python's `re.sub` of
each pair over the input, `uri_to_fspath` splits the result on the
generic slash and rejoins with the platform separator, and
`fspath_to_uri` splits the path on the platform separator,
percent-decodes (`urllib.unquote`) each segment, rejoins with the
generic slash and removes every occurrence of the marker token `^/`
(Python `str.replace`, one left-to-right non-overlapping pass).

Each of the sixteen rules is embedded below as an executable scanner on
`List Char` that mirrors the semantics of a global `re.sub` of the
corresponding pattern: the string is scanned left to right, the leftmost
match is replaced, and scanning resumes after the replaced text
(replacements are never rescanned).  Fuel arguments (always instantiated
with the length of the string, which bounds the number of scan steps
because every step consumes at least one character) keep the recursions
structural.
-/

/-- Lower-case hexadecimal digit, the character class `[0-9a-f]` of the
UUID/year rule. -/
def isHexLow (c : Char) : Bool :=
  c.isDigit || (decide ('a' ≤ c) && decide (c ≤ 'f'))

/-- Hexadecimal digit of either case, the digits `urllib.unquote`
accepts in a `%XX` escape. -/
def isHexDig (c : Char) : Bool :=
  c.isDigit || (decide ('a' ≤ c) && decide (c ≤ 'f'))
    || (decide ('A' ≤ c) && decide (c ≤ 'F'))

/-- Numeric value of a hexadecimal digit. -/
def hexVal (c : Char) : Nat :=
  if c.isDigit then c.toNat - '0'.toNat
  else if 'a' ≤ c then c.toNat - 'a'.toNat + 10
  else c.toNat - 'A'.toNat + 10

/-- Scanner for a global substitution of a literal pattern, the
behaviour of `re.sub` on a pattern without metacharacters and of Python
`str.replace`: leftmost non-overlapping matches, replacements never
rescanned.  The fuel bounds the number of steps; each step consumes at
least one character, so a fuel of the string's length is always
sufficient. -/
def replGo (pat rep : List Char) : Nat → List Char → List Char
  | 0, s => s
  | _ + 1, [] => []
  | n + 1, c :: cs =>
    if pat.isPrefixOf (c :: cs) then
      rep ++ replGo pat rep n ((c :: cs).drop pat.length)
    else c :: replGo pat rep n cs

/-- Global substitution of the literal `pat` by `rep`. -/
def replaceL (pat rep s : List Char) : List Char :=
  replGo pat rep s.length s

/-- Substring test (used only to state claims about outputs). -/
def hasSubstrL (pat : List Char) : List Char → Bool
  | [] => pat.isPrefixOf []
  | c :: cs => pat.isPrefixOf (c :: cs) || hasSubstrL pat cs

/-- Python `str.split(sep)` for a non-empty separator: split at each
leftmost non-overlapping occurrence, keeping empty pieces. -/
def splitStrGo (sep : List Char) : Nat → List Char → List (List Char)
  | 0, s => [s]
  | _ + 1, [] => [[]]
  | n + 1, c :: cs =>
    if sep.isPrefixOf (c :: cs) then
      [] :: splitStrGo sep n ((c :: cs).drop sep.length)
    else
      match splitStrGo sep n cs with
      | [] => [[c]]
      | h :: t => (c :: h) :: t

/-- Python `str.split(sep)` (the separator must be non-empty; the caller
`fspath_to_uri` turns Python's `ValueError` for the empty separator into
`none`). -/
def splitStrL (sep s : List Char) : List (List Char) :=
  splitStrGo sep s.length s

/-- Splitting on a single character, a structurally recursive function
equal to `splitStrL [c]` (proved below); used for reasoning. -/
def splitCharL (c : Char) : List Char → List (List Char)
  | [] => [[]]
  | a :: as =>
    if a = c then [] :: splitCharL c as
    else
      match splitCharL c as with
      | [] => [[a]]
      | h :: t => (a :: h) :: t

/-- Python `sep.join(pieces)`. -/
def joinSepL (sep : List Char) : List (List Char) → List Char
  | [] => []
  | [x] => x
  | x :: y :: ys => x ++ sep ++ joinSepL sep (y :: ys)

/-- Python 2 `urllib.unquote`: each `%XX` with two hexadecimal digits
becomes the character with that code; any other `%` is kept literally. -/
def unquoteL : List Char → List Char
  | [] => []
  | c :: a :: b :: rest =>
    if c = '%' && isHexDig a && isHexDig b then
      Char.ofNat (16 * hexVal a + hexVal b) :: unquoteL rest
    else c :: unquoteL (a :: b :: rest)
  | c :: cs => c :: unquoteL cs

/-- Match of the rule-7 pattern `[0-9a-f]{4,}-` at the head of the
string: the maximal run of lower-case hexadecimal characters has length
at least four and is followed by a hyphen (backtracking the greedy
`{4,}` can never succeed otherwise, since a shorter run would have to be
followed by a hyphen which is itself a hexadecimal character). -/
def hexMatchAt (s : List Char) : Bool :=
  match s.dropWhile isHexLow with
  | '-' :: _ => 4 ≤ (s.takeWhile isHexLow).length
  | _ => false

/-- Scanner of rule 7, `([0-9a-f]{4,}-)` → `\1^/`. -/
def hexGo : Nat → List Char → List Char
  | 0, s => s
  | _ + 1, [] => []
  | n + 1, c :: cs =>
    if hexMatchAt (c :: cs) then
      (c :: cs).takeWhile isHexLow ++ '-' :: '^' :: '/' ::
        hexGo n (((c :: cs).dropWhile isHexLow).drop 1)
    else c :: hexGo n cs

/-- Match of the rule-8 pattern `\^/(\d\d-\d\d)` at the head of the
string. -/
def mdMatch (s : List Char) : Bool :=
  match s with
  | a :: b :: d1 :: d2 :: e :: d3 :: d4 :: _ =>
    a == '^' && b == '/' && d1.isDigit && d2.isDigit && e == '-'
      && d3.isDigit && d4.isDigit
  | _ => false

/-- Scanner of rule 8, `\^/(\d\d-\d\d)` → `^/\1^/`: the matched seven
characters are kept and a second marker is appended. -/
def mdGo : Nat → List Char → List Char
  | 0, s => s
  | _ + 1, [] => []
  | n + 1, c :: cs =>
    if mdMatch (c :: cs) then
      (c :: cs).take 7 ++ '^' :: '/' :: mdGo n ((c :: cs).drop 7)
    else c :: mdGo n cs

/-- Timezone offset `[+-]\d\d?\d\d` of the rule-9 pattern: a sign then,
greedily, four digits if available, otherwise three.  Returns the
matched text and the remaining input. -/
def tzOff (s : List Char) : Option (List Char × List Char) :=
  match s with
  | sg :: rest =>
    if sg = '+' ∨ sg = '-' then
      match rest with
      | d1 :: d2 :: d3 :: d4 :: r =>
        if d1.isDigit ∧ d2.isDigit ∧ d3.isDigit then
          if d4.isDigit then some ([sg, d1, d2, d3, d4], r)
          else some ([sg, d1, d2, d3], d4 :: r)
        else none
      | [d1, d2, d3] =>
        if d1.isDigit ∧ d2.isDigit ∧ d3.isDigit then
          some ([sg, d1, d2, d3], []) else none
      | _ => none
    else none
  | [] => none

/-- End of the rule-9 pattern, `(?:[+-]\d\d?\d\d|Z)`. -/
def tzEnd (s : List Char) : Option (List Char × List Char) :=
  match s with
  | 'Z' :: r => some (['Z'], r)
  | _ => tzOff s

/-- Optional fraction and timezone, `(?:\.\d{3})?(?:[+-]\d\d?\d\d|Z)`,
of the rule-9 pattern (if the fraction matches but no timezone follows
it, backtracking retries without the fraction and necessarily fails at
the dot, so the whole match fails, as encoded here). -/
def tzMatch (s : List Char) : Option (List Char × List Char) :=
  match s with
  | '.' :: d1 :: d2 :: d3 :: rest =>
    if d1.isDigit ∧ d2.isDigit ∧ d3.isDigit then
      match tzEnd rest with
      | some (t, r) => some ('.' :: d1 :: d2 :: d3 :: t, r)
      | none => none
    else tzEnd s
  | _ => tzEnd s

/-- Match of the rule-9 pattern
`(T\d\d):(\d\d):(\d\d(?:\.\d{3})?(?:[+-]\d\d?\d\d|Z))` at the head of
the string, returning the replacement text `\1%3A\2%3A^/\3` and the
remaining input. -/
def timeMatch (s : List Char) : Option (List Char × List Char) :=
  match s with
  | a :: b :: c :: d :: e :: f :: g :: h :: i :: rest =>
    if a = 'T' ∧ b.isDigit ∧ c.isDigit ∧ d = ':' ∧ e.isDigit ∧ f.isDigit
        ∧ g = ':' ∧ h.isDigit ∧ i.isDigit then
      match tzMatch rest with
      | some (t, rest') =>
        some ([a, b, c, '%', '3', 'A', e, f, '%', '3', 'A', '^', '/', h, i]
          ++ t, rest')
      | none => none
    else none
  | _ => none

/-- Scanner of rule 9. -/
def timeGo : Nat → List Char → List Char
  | 0, s => s
  | _ + 1, [] => []
  | n + 1, c :: cs =>
    match timeMatch (c :: cs) with
    | some (rep, rest) => rep ++ timeGo n rest
    | none => c :: timeGo n cs

/-- The splitting characters `[@:?!#]` of rule 10. -/
def delimChars : List Char := ['@', ':', '?', '!', '#']

/-- One repetition of the rule-10 alternation `(?:/{2,}|[@:?!#])`: a
maximal run of at least two slashes, or a single splitting character.
Returns the consumed text and the remaining input. -/
def delimUnit (s : List Char) : Option (List Char × List Char) :=
  match s with
  | [] => none
  | a :: as =>
    if a = '/' then
      match as with
      | b :: bs =>
        if b = '/' then
          some ('/' :: '/' :: bs.takeWhile (fun x => x = '/'),
            bs.dropWhile (fun x => x = '/'))
        else none
      | [] => none
    else if a ∈ delimChars then some ([a], as) else none

/-- Greedy repetition of `delimUnit` (the `+` of rule 10): the consumed
text and the remaining input. -/
def delimUnits : Nat → List Char → List Char × List Char
  | 0, s => ([], s)
  | n + 1, s =>
    match delimUnit s with
    | none => ([], s)
    | some (u, rest) =>
      let p := delimUnits n rest
      (u ++ p.1, p.2)

/-- Scanner of rule 10, `((?:/{2,}|[@:?!#])+)` → `\1^/`. -/
def delimGo : Nat → List Char → List Char
  | 0, s => s
  | _ + 1, [] => []
  | n + 1, a :: as =>
    let p := delimUnits (a :: as).length (a :: as)
    if p.1 = [] then a :: delimGo n as
    else p.1 ++ '^' :: '/' :: delimGo n p.2

/-- Rule 1: `%` → `%25`. -/
def escPercent (s : List Char) : List Char :=
  replaceL ['%'] ['%', '2', '5'] s

/-- Rule 2: `\^` → `%5E`. -/
def escCaret (s : List Char) : List Char :=
  replaceL ['^'] ['%', '5', 'E'] s

/-- Rule 3: `\$` → `%24`. -/
def escDollar (s : List Char) : List Char :=
  replaceL ['$'] ['%', '2', '4'] s

/-- Rule 4: `\|` → `%7C`. -/
def escPipe (s : List Char) : List Char :=
  replaceL ['|'] ['%', '7', 'C'] s

/-- Rule 5: `\*` → `%2A`. -/
def escStar (s : List Char) : List Char :=
  replaceL ['*'] ['%', '2', 'A'] s

/-- Rule 6: `&` → `%26`. -/
def escAmp (s : List Char) : List Char :=
  replaceL ['&'] ['%', '2', '6'] s

/-- Rule 7: split on uuid-like or year. -/
def hexSplit (s : List Char) : List Char := hexGo s.length s

/-- Rule 8: split on month-day after a rewritten year. -/
def mdSplit (s : List Char) : List Char := mdGo s.length s

/-- Rule 9: split the time component. -/
def timeSplit (s : List Char) : List Char := timeGo s.length s

/-- Rule 10: split on runs of structural delimiters. -/
def delimSplit (s : List Char) : List Char := delimGo s.length s

/-- Rule 11: `:` → `%3A`. -/
def escColon (s : List Char) : List Char :=
  replaceL [':'] ['%', '3', 'A'] s

/-- Rule 12: `\!` → `%21`. -/
def escBang (s : List Char) : List Char :=
  replaceL ['!'] ['%', '2', '1'] s

/-- Rule 13: `\?` → `%3F`. -/
def escQuest (s : List Char) : List Char :=
  replaceL ['?'] ['%', '3', 'F'] s

/-- Rule 14: `#` → `%23`. -/
def escHash (s : List Char) : List Char :=
  replaceL ['#'] ['%', '2', '3'] s

/-- Rule 15: `//` → `%2F%2F`. -/
def escDblSlash (s : List Char) : List Char :=
  replaceL ['/', '/'] ['%', '2', 'F', '%', '2', 'F'] s

/-- Rule 16: `/\^` → `%2F^`. -/
def escSlashCaret (s : List Char) : List Char :=
  replaceL ['/', '^'] ['%', '2', 'F', '^'] s

/-- The left fold of the sixteen `REWRITE_PATTERNS` substitutions in
table order (`reduce(lambda path, transform: transform(path),
uri_transforms, uri)`). -/
def uriToPathL (u : List Char) : List Char :=
  escSlashCaret (escDblSlash (escHash (escQuest (escBang (escColon
    (delimSplit (timeSplit (mdSplit (hexSplit (escAmp (escStar
      (escPipe (escDollar (escCaret (escPercent u)))))))))))))))

/-- The marker token `^/`. -/
def markerL : List Char := ['^', '/']

/-- Core of `uri_to_fspath`:
`pathsep.join(uri_to_path(uri).split('/'))`. -/
def uriToFspathL (uri sep : List Char) : List Char :=
  joinSepL sep (splitStrL ['/'] (uriToPathL uri))

/-- Core of `fspath_to_uri`:
`"/".join(map(unquote, path.split(pathsep))).replace('^/', '')`.
Python's `str.split` raises `ValueError` on an empty separator, modelled
here by `none`. -/
def fspathToUriL (path sep : List Char) : Option (List Char) :=
  if sep = [] then none
  else
    some (replaceL markerL []
      (joinSepL ['/'] ((splitStrL sep path).map unquoteL)))

/-- `uri_to_path` of the source, on `String`. -/
def uri_to_path (uri : String) : String :=
  ⟨uriToPathL uri.toList⟩

/-- `uri_to_fspath` of the source, on `String`; the platform separator
`os.path.sep` is `/` where the module's doctests run. -/
def uri_to_fspath (uri : String) (pathsep : String := "/") : String :=
  ⟨uriToFspathL uri.toList pathsep.toList⟩

/-- `fspath_to_uri` of the source, on `String` (`none` models the
`ValueError` raised on an empty separator). -/
def fspath_to_uri (path : String) (pathsep : String := "/") :
    Option String :=
  (fspathToUriL path.toList pathsep.toList).map fun l => ⟨l⟩

/-- Pointwise description of rule 1. -/
def escapePercentsSpec : List Char → List Char
  | [] => []
  | c :: cs => (if c = '%' then ['%', '2', '5'] else [c]) ++ escapePercentsSpec cs

/-- Position-wise absence of a rule-7 match: at no position of the
string does a run of four or more lower-case hexadecimal characters end
at a hyphen; equivalently, no substring matches `[0-9a-f]{4,}-`. -/
def hexRunFree : List Char → Bool
  | [] => true
  | c :: cs => !hexMatchAt (c :: cs) && hexRunFree cs

/-- Characters that some rewrite rule can touch even in isolation:
the escaped characters of rules 1-6 and 11-16, the marker character,
the slash, and the splitting characters of rule 10. -/
def plainForbidden : List Char :=
  ['%', '^', '$', '|', '*', '&', ':', '!', '?', '#', '/', '@']

/-- The UUID-shaped URN of the module's doctests. -/
def uuidL : List Char := "0f7d48e4-2292-11e0-95ee-002332c94cb6".toList

/-- The five path segments the forward transform produces for `uuidL`
according to the module's doctests. -/
def segs6 : List (List Char) :=
  ["0f7d48e4-^".toList, "2292-^".toList, "11e0-^".toList, "95ee-^".toList,
    "002332c94cb6".toList]

/-! ### Helper lemmas -/


theorem replGo_nil (p0 : Char) (pr rep : List Char) (n : Nat) (s : List Char)
    (h : p0 ∉ s) : replGo (p0 :: pr) rep n s = s := by
  induction n generalizing s with
  | zero => rfl
  | succ n ih =>
    cases s with
    | nil => rfl
    | cons c cs =>
      have hc : ¬(p0 == c) = true := by
        simp only [beq_iff_eq]
        exact fun he => h (he ▸ List.mem_cons_self c cs)
      simp only [replGo, List.isPrefixOf, Bool.and_eq_true]
      rw [if_neg (fun hp => hc hp.1)]
      rw [ih cs (fun hm => h (List.mem_cons_of_mem _ hm))]

theorem replaceL_id (p0 : Char) (pr rep s : List Char) (h : p0 ∉ s) :
    replaceL (p0 :: pr) rep s = s :=
  replGo_nil p0 pr rep s.length s h

theorem replGo_percent (n : Nat) (s : List Char) (hn : s.length ≤ n) :
    replGo ['%'] ['%', '2', '5'] n s = escapePercentsSpec s := by
  induction n generalizing s with
  | zero =>
    have : s = [] := List.eq_nil_of_length_eq_zero (Nat.le_zero.mp hn)
    subst this; rfl
  | succ n ih =>
    cases s with
    | nil => rfl
    | cons c cs =>
      have hlen : cs.length ≤ n := Nat.succ_le_succ_iff.mp hn
      simp only [replGo, List.isPrefixOf_cons₂, List.isPrefixOf_nil_left,
        Bool.and_true, escapePercentsSpec]
      by_cases hc : c = '%'
      · subst hc
        rw [if_pos (by simp), if_pos rfl]
        rw [show (('%' :: cs).drop ['%'].length) = cs from rfl]
        rw [ih cs hlen]
      · rw [if_neg (by simp [Ne.symm hc]), if_neg hc]
        rw [ih cs hlen]
        simp

theorem escPercent_eq_spec (s : List Char) : escPercent s = escapePercentsSpec s :=
  replGo_percent s.length s le_rfl

theorem splitCharL_ne_nil (c : Char) (s : List Char) : splitCharL c s ≠ [] := by
  cases s with
  | nil => simp [splitCharL]
  | cons a as =>
    simp only [splitCharL]
    split
    · simp
    · split <;> simp

theorem splitStrGo_single (c : Char) (n : Nat) (s : List Char)
    (hn : s.length ≤ n) : splitStrGo [c] n s = splitCharL c s := by
  induction n generalizing s with
  | zero =>
    have : s = [] := List.eq_nil_of_length_eq_zero (Nat.le_zero.mp hn)
    subst this; rfl
  | succ n ih =>
    cases s with
    | nil => rfl
    | cons a as =>
      have hlen : as.length ≤ n := Nat.succ_le_succ_iff.mp hn
      simp only [splitStrGo, splitCharL, List.isPrefixOf_cons₂,
        List.isPrefixOf_nil_left, Bool.and_true]
      by_cases hc : a = c
      · rw [if_pos (by simp [hc]), if_pos hc]
        rw [show ((a :: as).drop [c].length) = as from rfl]
        rw [ih as hlen]
      · rw [if_neg (by simpa using Ne.symm hc), if_neg hc]
        rw [ih as hlen]

theorem splitStrL_single (c : Char) (s : List Char) :
    splitStrL [c] s = splitCharL c s :=
  splitStrGo_single c s.length s le_rfl

theorem mem_splitCharL_not_mem (c : Char) (s seg : List Char)
    (h : seg ∈ splitCharL c s) : c ∉ seg := by
  induction s generalizing seg with
  | nil =>
    simp [splitCharL] at h
    subst h; simp
  | cons a as ih =>
    simp only [splitCharL] at h
    by_cases hc : a = c
    · rw [if_pos hc] at h
      rcases List.mem_cons.mp h with rfl | hm
      · simp
      · exact ih seg hm
    · rw [if_neg hc] at h
      rcases hx : splitCharL c as with _ | ⟨hh, tt⟩
      · exact absurd hx (splitCharL_ne_nil c as)
      · rw [hx] at h
        rcases List.mem_cons.mp h with rfl | hm
        · intro hmem
          rcases List.mem_cons.mp hmem with rfl | hmem2
          · exact hc rfl
          · exact ih hh (hx ▸ List.mem_cons_self hh tt) hmem2
        · exact ih seg (hx ▸ List.mem_cons_of_mem hh hm)

theorem splitCharL_of_not_mem (c : Char) (s : List Char) (h : c ∉ s) :
    splitCharL c s = [s] := by
  induction s with
  | nil => rfl
  | cons a as ih =>
    have ha : a ≠ c := fun he => h (he ▸ List.mem_cons_self a as)
    simp only [splitCharL]
    rw [if_neg ha, ih (fun hm => h (List.mem_cons_of_mem a hm))]

theorem splitCharL_append (c : Char) (x s hh : List Char)
    (tt : List (List Char)) (hx : c ∉ x)
    (hs : splitCharL c s = hh :: tt) :
    splitCharL c (x ++ s) = (x ++ hh) :: tt := by
  induction x with
  | nil => simpa using hs
  | cons a x' ih =>
    have ha : a ≠ c := fun he => hx (he ▸ List.mem_cons_self a x')
    simp only [List.cons_append, splitCharL, List.append_eq]
    rw [if_neg ha, ih (fun hm => hx (List.mem_cons_of_mem a hm))]

theorem splitCharL_join (c : Char) (segs : List (List Char)) (h0 : segs ≠ [])
    (h : ∀ s ∈ segs, c ∉ s) : splitCharL c (joinSepL [c] segs) = segs := by
  induction segs with
  | nil => exact absurd rfl h0
  | cons x xs ih =>
    cases xs with
    | nil =>
      simp only [joinSepL]
      exact splitCharL_of_not_mem c x (h x (List.mem_cons_self x []))
    | cons y ys =>
      have hJ : splitCharL c (joinSepL [c] (y :: ys)) = y :: ys :=
        ih (by simp) (fun s hs => h s (List.mem_cons_of_mem x hs))
      have hcons : splitCharL c (c :: joinSepL [c] (y :: ys))
          = [] :: y :: ys := by
        simp [splitCharL, hJ]
      have hx : c ∉ x := h x (List.mem_cons_self x (y :: ys))
      have := splitCharL_append c x (c :: joinSepL [c] (y :: ys)) [] (y :: ys)
        hx hcons
      simp only [joinSepL]
      rw [show x ++ [c] ++ joinSepL [c] (y :: ys)
        = x ++ (c :: joinSepL [c] (y :: ys)) by simp]
      rw [this]
      simp


theorem unquoteL_cons (c : Char) (cs : List Char) (hc : c ≠ '%') :
    unquoteL (c :: cs) = c :: unquoteL cs := by
  match cs with
  | [] => rfl
  | [a] => rfl
  | a :: b :: rest =>
    simp only [unquoteL]
    rw [if_neg (by simp [hc])]

theorem unquoteL_id (s : List Char) (h : '%' ∉ s) : unquoteL s = s := by
  induction s with
  | nil => rfl
  | cons c cs ih =>
    have hc : c ≠ '%' := fun he => h (he ▸ List.mem_cons_self c cs)
    rw [unquoteL_cons c cs hc, ih (fun hm => h (List.mem_cons_of_mem c hm))]

theorem hexGo_id (n : Nat) (s : List Char) (h : hexRunFree s = true) :
    hexGo n s = s := by
  induction n generalizing s with
  | zero => rfl
  | succ n ih =>
    cases s with
    | nil => rfl
    | cons c cs =>
      simp only [hexRunFree, Bool.and_eq_true, Bool.not_eq_true'] at h
      simp only [hexGo, h.1, Bool.false_eq_true, if_false]
      rw [ih cs h.2]

theorem mdMatch_eq_false (s : List Char) (h : '^' ∉ s) :
    mdMatch s = false := by
  rcases s with _ | ⟨a, _ | ⟨b, _ | ⟨d1, _ | ⟨d2, _ | ⟨e, _ | ⟨d3, _ | ⟨d4, rest⟩⟩⟩⟩⟩⟩⟩ <;>
    try rfl
  have ha : a ≠ '^' := fun he => h (he ▸ List.mem_cons_self _ _)
  simp [mdMatch, ha]

theorem mdGo_id (n : Nat) (s : List Char) (h : '^' ∉ s) :
    mdGo n s = s := by
  induction n generalizing s with
  | zero => rfl
  | succ n ih =>
    cases s with
    | nil => rfl
    | cons c cs =>
      simp only [mdGo, mdMatch_eq_false (c :: cs) h, Bool.false_eq_true,
        if_false]
      rw [ih cs (fun hm => h (List.mem_cons_of_mem c hm))]

theorem timeMatch_eq_none (s : List Char) (h : ':' ∉ s) :
    timeMatch s = none := by
  rcases s with _ | ⟨a, _ | ⟨b, _ | ⟨c, _ | ⟨d, _ | ⟨e, _ | ⟨f, _ | ⟨g, _ |
    ⟨h2, _ | ⟨i, rest⟩⟩⟩⟩⟩⟩⟩⟩⟩ <;> try rfl
  simp only [timeMatch]
  rw [if_neg]
  rintro ⟨-, -, -, hd, -⟩
  exact h (by simp [hd])

theorem timeGo_id (n : Nat) (s : List Char) (h : ':' ∉ s) :
    timeGo n s = s := by
  induction n generalizing s with
  | zero => rfl
  | succ n ih =>
    cases s with
    | nil => rfl
    | cons c cs =>
      simp only [timeGo, timeMatch_eq_none (c :: cs) h]
      rw [ih cs (fun hm => h (List.mem_cons_of_mem c hm))]

theorem delimUnit_eq_none (a : Char) (as : List Char) (h1 : a ≠ '/')
    (h2 : a ∉ delimChars) : delimUnit (a :: as) = none := by
  simp [delimUnit, h1, h2]

theorem delimUnits_of_none (k : Nat) (s : List Char)
    (h : delimUnit s = none) : delimUnits k s = ([], s) := by
  cases k with
  | zero => rfl
  | succ k => simp [delimUnits, h]

theorem delimGo_id (n : Nat) (s : List Char)
    (h : ∀ a ∈ s, a ≠ '/' ∧ a ∉ delimChars) : delimGo n s = s := by
  induction n generalizing s with
  | zero => rfl
  | succ n ih =>
    cases s with
    | nil => rfl
    | cons a as =>
      have ha := h a (List.mem_cons_self a as)
      simp only [delimGo,
        delimUnits_of_none _ (a :: as) (delimUnit_eq_none a as ha.1 ha.2)]
      rw [ih as (fun x hx => h x (List.mem_cons_of_mem a hx))]
      simp


theorem notMemOfForbidden {u : List Char}
    (h1 : ∀ c ∈ u, c ∉ plainForbidden) {x : Char}
    (hx : x ∈ plainForbidden) : x ∉ u :=
  fun hm => h1 x hm hx

theorem uriToPathL_id (u : List Char) (h1 : ∀ c ∈ u, c ∉ plainForbidden)
    (h2 : hexRunFree u = true) : uriToPathL u = u := by
  have hPct : '%' ∉ u := notMemOfForbidden h1 (by decide)
  have hCar : '^' ∉ u := notMemOfForbidden h1 (by decide)
  have hDol : '$' ∉ u := notMemOfForbidden h1 (by decide)
  have hPip : '|' ∉ u := notMemOfForbidden h1 (by decide)
  have hSta : '*' ∉ u := notMemOfForbidden h1 (by decide)
  have hAmp : '&' ∉ u := notMemOfForbidden h1 (by decide)
  have hCol : ':' ∉ u := notMemOfForbidden h1 (by decide)
  have hBan : '!' ∉ u := notMemOfForbidden h1 (by decide)
  have hQue : '?' ∉ u := notMemOfForbidden h1 (by decide)
  have hHas : '#' ∉ u := notMemOfForbidden h1 (by decide)
  have hSla : '/' ∉ u := notMemOfForbidden h1 (by decide)
  have hDel : ∀ a ∈ u, a ≠ '/' ∧ a ∉ delimChars := by
    intro a ha
    refine ⟨fun he => (h1 a ha) (he ▸ by decide), fun hd => ?_⟩
    have : a ∈ plainForbidden := by
      simp only [delimChars, List.mem_cons, List.not_mem_nil, or_false] at hd
      rcases hd with rfl | rfl | rfl | rfl | rfl <;> decide
    exact h1 a ha this
  unfold uriToPathL
  rw [show escPercent u = u from replaceL_id _ _ _ _ hPct]
  rw [show escCaret u = u from replaceL_id _ _ _ _ hCar]
  rw [show escDollar u = u from replaceL_id _ _ _ _ hDol]
  rw [show escPipe u = u from replaceL_id _ _ _ _ hPip]
  rw [show escStar u = u from replaceL_id _ _ _ _ hSta]
  rw [show escAmp u = u from replaceL_id _ _ _ _ hAmp]
  rw [show hexSplit u = u from hexGo_id _ _ h2]
  rw [show mdSplit u = u from mdGo_id _ _ hCar]
  rw [show timeSplit u = u from timeGo_id _ _ hCol]
  rw [show delimSplit u = u from delimGo_id _ _ hDel]
  rw [show escColon u = u from replaceL_id _ _ _ _ hCol]
  rw [show escBang u = u from replaceL_id _ _ _ _ hBan]
  rw [show escQuest u = u from replaceL_id _ _ _ _ hQue]
  rw [show escHash u = u from replaceL_id _ _ _ _ hHas]
  rw [show escDblSlash u = u from replaceL_id _ _ _ _ hSla]
  rw [show escSlashCaret u = u from replaceL_id _ _ _ _ hSla]

/-! ### Claims -/

/-- Claim C1, counterexample: round-trip fidelity does not hold for
every URI string.  For the URI `^/` (with separator `/`), the forward
pass escapes the caret to `%5E`, the reverse pass decodes it back to a
caret before stripping markers, and the stripping pass then deletes it
together with the genuine slash: the pipeline returns the empty string,
not `^/`. -/
theorem c1_counterexample :
    fspath_to_uri (uri_to_fspath ("^/") "/") "/" = some ""
    ∧ ("" : String) ≠ "^/" := by constructor <;> decide

/-- Claim C1, amended: round-trip fidelity
`fspath_to_uri (uri_to_fspath u "/") "/" = some u` holds for the
representative corpus of the specification — a UUID-shaped URN, an HTTP
URL with colon and at-sign segments, a URI with an embedded ISO-8601
timestamp plus query and fragment (with and without a fractional-second
`Z` time), and a URI with literal percent characters — with the generic
separator `/`. -/
theorem c1_corpus_roundtrip :
    fspath_to_uri (uri_to_fspath ("0f7d48e4-2292-11e0-95ee-002332c94cb6") "/") "/"
      = some "0f7d48e4-2292-11e0-95ee-002332c94cb6"
    ∧ fspath_to_uri (uri_to_fspath ("http://abc/def:ghi/jkl@mno") "/") "/"
      = some "http://abc/def:ghi/jkl@mno"
    ∧ fspath_to_uri
        (uri_to_fspath ("item@2011-02-12T16:32:00-0100/data?rev=1&l=100#main") "/") "/"
      = some "item@2011-02-12T16:32:00-0100/data?rev=1&l=100#main"
    ∧ fspath_to_uri
        (uri_to_fspath
          ("http://example.org/publ/abc:xyz/r@2011-02-12T16:32:00.000Z/data?rev=1&l=100#main") "/") "/"
      = some "http://example.org/publ/abc:xyz/r@2011-02-12T16:32:00.000Z/data?rev=1&l=100#main"
    ∧ fspath_to_uri (uri_to_fspath ("http://example.org/some%20escapes%20(%3F%)") "/") "/"
      = some "http://example.org/some%20escapes%20(%3F%)" := by
  refine ⟨by decide, by decide, by decide, by decide, by decide⟩

/-- Claim C2: the marker-stripping step of `fspath_to_uri` is claimed
never to delete characters that originate from the URI itself, the
escaping of `^` before marker insertion being the stated protection.
The code violates this: for the URI `a^/b` the forward pass writes the
caret as `%5E`, but the reverse pass percent-decodes each segment
before stripping markers, so the decoded user caret together with the
genuine slash forms `^/` and is deleted — the pipeline returns `ab`. -/
theorem c2_collision_eval :
    fspath_to_uri (uri_to_fspath ("a^/b") "/") "/" = some "ab"
    ∧ ("ab" : String) ≠ "a^/b" := by constructor <;> decide

/-- Claim C3, counterexample: applying the Rule Table a second time to
its own output does re-escape `%25` to `%2525`: `uri_to_path "%"` is
`%25`, and applying `uri_to_path` to that output yields `%2525`,
because rule 1 escapes every literal percent again. -/
theorem c3_counterexample :
    uri_to_path ("%") = "%25" ∧ uri_to_path (uri_to_path ("%")) = "%2525" := by
  constructor <;> decide

/-- Claim C3, amended: the guard against re-escaping holds within a
single application of the Rule Table: rule 1 is one non-rescanning
pass that escapes each literal `%` exactly once (it equals the
pointwise map sending `%` to `%25` and every other character to
itself), and no later rule rewrites a percent character, so a single
application maps `%` to `%25` and never to `%2525`. -/
theorem c3_single_application :
    (∀ s : List Char, escPercent s = escapePercentsSpec s)
    ∧ uri_to_path ("%") = "%25" :=
  ⟨escPercent_eq_spec, by decide⟩

/-- Claim C4, counterexample: the reverse transform can return a URI
that still contains the marker token `^/`.  For the path `^^//` (with
separator `/`), decoding changes nothing and the single left-to-right
deletion pass removes the middle `^/`, juxtaposing the remaining caret
and slash into a new `^/` that survives in the output. -/
theorem c4_counterexample :
    fspath_to_uri ("^^//") "/" = some "^/"
    ∧ hasSubstrL ['^', '/'] "^/".toList = true := by constructor <;> decide

/-- Claim C4, amended: for every path and every non-empty separator,
`fspath_to_uri` equals the algorithm the claim describes — split on the
separator, percent-decode each segment independently, rejoin with `/`,
then delete the occurrences of `^/` in one left-to-right
non-overlapping pass; the final clause of the claim (that the result
never contains `^/`) is dropped, since deletion can juxtapose a caret
and a slash into a new marker. -/
theorem c4_reverse_algorithm (p s : List Char) (h : s ≠ []) :
    fspathToUriL p s =
      some (replaceL markerL []
        (joinSepL ['/'] ((splitStrL s p).map unquoteL))) := by
  simp [fspathToUriL, h]

/-- Witness for `c4_reverse_algorithm` at the path `a%2Fb` and
separator `/`. -/
theorem c4_reverse_algorithm_witness :
    (['/'] : List Char) ≠ []
    ∧ fspathToUriL "a%2Fb".toList ['/'] =
        some (replaceL markerL []
          (joinSepL ['/'] ((splitStrL ['/'] "a%2Fb".toList).map unquoteL))) :=
  ⟨by decide, c4_reverse_algorithm "a%2Fb".toList ['/'] (by decide)⟩

/-- Claim C5, counterexample: segment legality fails for an arbitrary
separator string.  For the URI `ab` and the separator `a`, the single
segment produced by the forward transform is `ab` itself, which
contains an (unescaped) occurrence of the separator. -/
theorem c5_counterexample :
    ((splitStrL ['/'] (uriToPathL ['a', 'b'])).all
      fun seg => !hasSubstrL ['a'] seg) = false := by decide

/-- Claim C5, amended: with the generic separator `/` (the separator
the rule table actually escapes), every segment produced by the
forward transform — every element of `uri_to_path(u).split('/')` —
contains no occurrence of `/` at all. -/
theorem c5_segment_no_slash (u seg : List Char)
    (h : seg ∈ splitStrL ['/'] (uriToPathL u)) : '/' ∉ seg := by
  rw [splitStrL_single] at h
  exact mem_splitCharL_not_mem '/' _ seg h

/-- Witness for `c5_segment_no_slash` at the URI `a@b`, whose first
segment is `a@^`. -/
theorem c5_segment_no_slash_witness :
    ['a', '@', '^'] ∈ splitStrL ['/'] (uriToPathL "a@b".toList)
    ∧ '/' ∉ (['a', '@', '^'] : List Char) :=
  ⟨by decide, c5_segment_no_slash "a@b".toList ['a', '@', '^'] (by decide)⟩

/-- Claim C6, counterexample: the UUID scenario does not hold for an
arbitrary separator.  With the separator `e`, which occurs inside the
produced segments, the reverse transform splits in the wrong places and
does not return the original URN. -/
theorem c6_counterexample :
    fspathToUriL (uriToFspathL uuidL ['e']) ['e'] ≠ some uuidL := by decide

/-- Claim C6, amended: for every separator character that does not
occur in the five segments (in particular the platform separator `/`),
`uri_to_fspath` of the UUID-shaped URN is exactly the five segments
`0f7d48e4-^`, `2292-^`, `11e0-^`, `95ee-^`, `002332c94cb6` joined by
the separator, and `fspath_to_uri` of that path returns the original
URN unchanged. -/
theorem c6_uuid_scenario (c : Char) (h : ∀ s ∈ segs6, c ∉ s) :
    uriToFspathL uuidL [c] = joinSepL [c] segs6
    ∧ fspathToUriL (joinSepL [c] segs6) [c] = some uuidL := by
  constructor
  · show joinSepL [c] (splitStrL ['/'] (uriToPathL uuidL)) = joinSepL [c] segs6
    rw [show splitStrL ['/'] (uriToPathL uuidL) = segs6 by decide]
  · unfold fspathToUriL
    rw [if_neg (by simp), splitStrL_single,
      splitCharL_join c segs6 (by decide) h]
    rw [show (segs6.map unquoteL) = segs6 by decide]
    rw [show replaceL markerL [] (joinSepL ['/'] segs6) = uuidL by decide]

/-- Witness for `c6_uuid_scenario` at the platform separator `/`. -/
theorem c6_uuid_scenario_witness :
    (∀ s ∈ segs6, '/' ∉ s)
    ∧ uriToFspathL uuidL ['/'] = joinSepL ['/'] segs6
    ∧ fspathToUriL (joinSepL ['/'] segs6) ['/'] = some uuidL :=
  ⟨by decide, c6_uuid_scenario '/' (by decide)⟩

/-- Claim C7: the timestamp scenario.  The forward transform of
`item@2011-02-12T16:32:00-0100/data?rev=1&l=100#main` with separator
`/` yields exactly the path of the claim, splitting year, month-day and
time components into nested segments, and the reverse transform of that
path recovers the exact original string including the literal `&` and
`#`. -/
theorem c7_timestamp_scenario :
    uri_to_fspath ("item@2011-02-12T16:32:00-0100/data?rev=1&l=100#main") "/"
      = "item@^/2011-^/02-12^/T16%3A32%3A^/00-0100/data%3F^/rev=1%26l=100%23^/main"
    ∧ fspath_to_uri
        ("item@^/2011-^/02-12^/T16%3A32%3A^/00-0100/data%3F^/rev=1%26l=100%23^/main") "/"
      = some "item@2011-02-12T16:32:00-0100/data?rev=1&l=100#main" := by
  constructor <;> decide

/-- Claim C8: the raw-percent scenario.  The URI
`http://example.org/some%20escapes%20(%3F%)`, which contains literal
percent characters not part of any escape sequence, round-trips
exactly, because rule 1 escapes `%` to `%25` before any other rule
runs. -/
theorem c8_percent_roundtrip :
    fspath_to_uri (uri_to_fspath ("http://example.org/some%20escapes%20(%3F%)") "/") "/"
      = some "http://example.org/some%20escapes%20(%3F%)" := by decide

/-- Claim C9, counterexample: `fspath_to_uri` is not total for every
separator string.  With the empty separator, Python's `str.split`
raises `ValueError` (modelled as `none`). -/
theorem c9_counterexample : fspath_to_uri ("x") "" = none := by decide

/-- Claim C9, amended: both transforms terminate on every input;
`uri_to_fspath` returns a string for every input and separator (it is a
total function of the embedding), and `fspath_to_uri` returns a string
for every input and every non-empty separator. -/
theorem c9_totality (p s : List Char) (h : s ≠ []) :
    (fspathToUriL p s).isSome = true := by
  simp [fspathToUriL, h]

/-- Witness for `c9_totality` at the path `a` and separator `/`. -/
theorem c9_totality_witness :
    (['/'] : List Char) ≠ []
    ∧ (fspathToUriL "a".toList ['/']).isSome = true :=
  ⟨by decide, c9_totality "a".toList ['/'] (by decide)⟩

/-- Claim C10, counterexample: the claimed list of inert characters is
missing `@`, one of the splitting characters of rule 10.  The string
`a@b` contains none of the listed characters and no hexadecimal-run
match, yet the forward transform inserts a marker after the `@`. -/
theorem c10_counterexample :
    uri_to_fspath ("a@b") "/" = "a@^/b" ∧ ("a@^/b" : String) ≠ "a@b" := by
  constructor <;> decide

/-- Claim C10, amended: for every string containing none of the
characters `% ^ $ | * & : ! ? # /` and `@`, and containing no substring
matching `[0-9a-f]{4,}-`, both transforms (with the generic separator
`/`) act as the identity. -/
theorem c10_identity (u : List Char) (h1 : ∀ c ∈ u, c ∉ plainForbidden)
    (h2 : hexRunFree u = true) :
    uriToFspathL u ['/'] = u ∧ fspathToUriL u ['/'] = some u := by
  have hSla : '/' ∉ u := notMemOfForbidden h1 (by decide)
  have hPct : '%' ∉ u := notMemOfForbidden h1 (by decide)
  have hCar : '^' ∉ u := notMemOfForbidden h1 (by decide)
  have hsplit : splitStrL ['/'] u = [u] := by
    rw [splitStrL_single, splitCharL_of_not_mem _ _ hSla]
  constructor
  · unfold uriToFspathL
    rw [uriToPathL_id u h1 h2, hsplit]
    rfl
  · unfold fspathToUriL
    rw [if_neg (by simp), hsplit]
    simp only [List.map]
    rw [unquoteL_id u hPct]
    show some (replaceL markerL [] (joinSepL ['/'] [u])) = some u
    rw [show joinSepL ['/'] [u] = u from rfl]
    rw [show replaceL markerL [] u = replaceL ('^' :: ['/']) [] u from rfl]
    rw [replaceL_id _ _ _ _ hCar]

/-- Witness for `c10_identity` at the plain string `hello`. -/
theorem c10_identity_witness :
    (∀ c ∈ "hello".toList, c ∉ plainForbidden)
    ∧ hexRunFree "hello".toList = true
    ∧ uriToFspathL "hello".toList ['/'] = "hello".toList
    ∧ fspathToUriL "hello".toList ['/'] = some "hello".toList := by
  refine ⟨by decide, by decide, ?_, ?_⟩
  · exact (c10_identity "hello".toList (by decide) (by decide)).1
  · exact (c10_identity "hello".toList (by decide) (by decide)).2
